import Mathlib

/-!
Verification development for the metronome repository.

Shallow embedding of the rhythm-grid generator (src/beat_spec.rs), the
key-sequence recognizer (src/met_controller.rs), the mode keypress
handlers (src/met_model.rs, src/tap_model.rs, src/set_model.rs) and the
tick-timer operations (src/app_state.rs).

Conventions of the embedding:
- u32 values are modelled as Nat; where the source can overflow a u32
  multiplication, the model applies an explicit mod 2^32 (release-build
  wrapping semantics).
- Operations that can panic in Rust (index out of bounds, division or
  remainder by zero, a failed assert_eq!, an explicit panic!) are
  modelled as Option-returning functions with none for the panic.
- f64 fields that no claim computes with (volume, tempo deltas) are
  modelled as rationals; they are only carried around and compared.
- Instant and Duration are modelled as Nat (a point on, resp. an
  interval of, a discrete monotonic clock).
-/

namespace Metronome

/-- Power of two used for u32 wrap-around arithmetic. -/
def u32Mod : Nat := 4294967296

-- ---------------------------------------------------------------------
-- Data model: Event and BeatSpec (src/beat_spec.rs lines 25-44)
-- ---------------------------------------------------------------------

/-- Event: one cell of the rhythm grid (enum Event in beat_spec.rs). -/
inductive Event where
  | rest : Event
  | beep (emphasis : Nat) : Event
deriving DecidableEq, Repr

/-- BeatSpec: the compiled rhythm (struct BeatSpec in beat_spec.rs). -/
structure BeatSpec where
  ticks : List Event
  beat_len : Nat
deriving DecidableEq, Repr

-- ---------------------------------------------------------------------
-- euclid and lcm (src/beat_spec.rs lines 152-172)
-- ---------------------------------------------------------------------

/-- Fuel-indexed version of the while loop in fn euclid; the fuel only
serves to make the recursion structural, it never runs out when the
initial fuel exceeds the second argument. -/
def euclidFuel : Nat → Nat → Nat → Nat
  | 0, a, _ => a
  | f + 1, a, b => if b = 0 then a else euclidFuel f b (a % b)

/-- Model of fn euclid(a, b): the Euclidean algorithm via a while loop. -/
def euclid (a b : Nat) : Nat := euclidFuel (b + 1) a b

/-- Model of fn lcm(nums): the running product with u32 wrap-around on
the multiplication (release-build semantics; debug builds would panic
at the same point the wrap occurs). -/
def lcmU32 (nums : List Nat) : Nat :=
  nums.foldl (fun l n => (l * (n / euclid l n)) % u32Mod) 1

/-- The same fold without the u32 wrap: the mathematically exact value
the loop computes when no overflow occurs. -/
def lcmExact (nums : List Nat) : Nat :=
  nums.foldl (fun l n => l * (n / euclid l n)) 1

-- ---------------------------------------------------------------------
-- BeatSpec::from_crossbeats (src/beat_spec.rs lines 55-86)
-- ---------------------------------------------------------------------

/-- Inner loop of from_crossbeats for one tick: scan the beat list in
priority order; the first beat owning this tick wins. Models, in order,
the panic inside assert_eq!(n_ticks % beat, 0) when beat is 0, the
assert_eq! failure itself, and the remainder-by-zero panic in
tick % (n_ticks / beat); each is none. -/
def scanBeats (nTicks tick : Nat) : List Nat → Nat → Option Event
  | [], _ => some .rest
  | b :: rest, idx =>
    if b = 0 then none
    else if nTicks % b ≠ 0 then none
    else if nTicks / b = 0 then none
    else if tick % (nTicks / b) = 0 then some (.beep idx)
    else scanBeats nTicks tick rest (idx + 1)

/-- The tick-building for loop of from_crossbeats: builds the events for
ticks t, t+1, ..., t+r-1, propagating any panic. -/
def buildAux (bs : List Nat) (nTicks : Nat) : Nat → Nat → Option (List Event)
  | _, 0 => some []
  | t, r + 1 =>
    match scanBeats nTicks t bs 0 with
    | some e =>
      match buildAux bs nTicks (t + 1) r with
      | some l => some (e :: l)
      | _ => none
    | _ => none

/-- Model of BeatSpec::from_crossbeats. The implicit crossbeat 1 is
prepended; the tick vector is built for 0..n_ticks; beat_len is
n_ticks / beats[1], whose out-of-bounds index (empty input) and
division by zero are the two remaining panics. -/
def fromCrossbeats (beats : List Nat) : Option BeatSpec :=
  (buildAux (1 :: beats) (lcmU32 (1 :: beats)) 0 (lcmU32 (1 :: beats))).bind fun ticks =>
    match beats with
    | [] => none
    | b1 :: _ => if b1 = 0 then none else some ⟨ticks, lcmU32 (1 :: beats) / b1⟩

/-- Model of BeatSpec::from_subdiv: from_crossbeats on the two-element
list, with u32 wrap on the product. -/
def fromSubdiv (beats subdiv : Nat) : Option BeatSpec :=
  fromCrossbeats [beats, (beats * subdiv) % u32Mod]

-- ---------------------------------------------------------------------
-- BeatSpec::from_rhythmspec (src/beat_spec.rs lines 89-114)
-- ---------------------------------------------------------------------

/-- Loop body of from_rhythmspec: ticks and beat_len accumulate, n
counts every character processed so far (the source increments n after
every character, including a bang). none models the bail! on an unknown
character. -/
def rspecLoop : List Char → List Event → Nat → Nat → Option (List Event × Nat)
  | [], ticks, beatLen, _ => some (ticks, beatLen)
  | c :: rest, ticks, beatLen, n =>
    if '0' ≤ c ∧ c ≤ '9' then
      rspecLoop rest (ticks ++ [.beep (c.toNat - '0'.toNat)]) beatLen (n + 1)
    else if c = '.' then
      rspecLoop rest (ticks ++ [.rest]) beatLen (n + 1)
    else if c = '!' then
      rspecLoop rest ticks n (n + 1)
    else
      none

/-- Model of BeatSpec::from_rhythmspec on the character list of the
input string; beat_len starts at 1. -/
def fromRhythmspec (s : List Char) : Option BeatSpec :=
  (rspecLoop s [] 1 0).map fun p => ⟨p.1, p.2⟩

/-- Index of the last bang in the string, if any. -/
def lastBangIdx? : List Char → Option Nat
  | [] => none
  | c :: rest =>
    match lastBangIdx? rest with
    | some k => some (k + 1)
    | none => if c = '!' then some 0 else none

/-- What the source actually stores in beat_len: the number of
characters of any kind before the last bang, defaulting to 1. -/
def charsBeforeLastBang (s : List Char) : Nat :=
  (lastBangIdx? s).getD 1

/-- What the claim says beat_len is: the number of tick-emitting (non
bang) characters before the last bang, defaulting to 1. -/
def ticksBeforeLastBang (s : List Char) : Nat :=
  ((lastBangIdx? s).map (fun k => (s.take k).countP (fun c => !(c == '!')))).getD 1

-- ---------------------------------------------------------------------
-- BeatSpec::make_divisible (src/beat_spec.rs lines 121-139)
-- ---------------------------------------------------------------------

/-- The inner loop of make_divisible: every original tick is followed
by factor - 1 inserted Rests (the for loop over 1..factor). -/
def upsample (factor : Nat) : List Event → List Event
  | [] => []
  | b :: rest => b :: (List.replicate (factor - 1) Event.rest ++ upsample factor rest)

/-- Model of BeatSpec::make_divisible. The variable the source calls
n_ticks is in fact self.beat_len; factor is value / euclid(beat_len,
value). The division panics (none) exactly when the gcd is 0, i.e.
when both beat_len and value are 0; the new beat_len multiplication
wraps as a u32. -/
def makeDivisible (s : BeatSpec) (value : Nat) : Option BeatSpec :=
  if euclid s.beat_len value = 0 then none
  else
    some ⟨upsample (value / euclid s.beat_len value) s.ticks,
      (s.beat_len * (value / euclid s.beat_len value)) % u32Mod⟩

/-- Extraction of every factor-th element (indices 0, k, 2k, ...),
with explicit fuel so that the recursion is structural; fuel at least
the list length gives the intended function. -/
def takeEvery (k : Nat) : Nat → List Event → List Event
  | 0, _ => []
  | _, [] => []
  | f + 1, b :: rest => b :: takeEvery k f (rest.drop (k - 1))

-- ---------------------------------------------------------------------
-- Key recognizer (src/met_controller.rs)
-- ---------------------------------------------------------------------

/-- The f64 constant VOL_ADJUST = 0.1 (constants.rs), used only as an
inert payload, modelled as the rational 1/10. -/
def volAdjust : Rat := 1 / 10

/-- The f64 constant TEMPO_ADJUST = 1.0 (constants.rs), used only as
an inert payload, modelled as the rational 1. -/
def tempoAdjust : Rat := 1

/-- enum ControllerMsg (met_controller.rs lines 25-57). -/
inductive ControllerMsg where
  | pause : ControllerMsg
  | play : ControllerMsg
  | toggle : ControllerMsg
  | adjustVolume (x : Rat) : ControllerMsg
  | adjustTempo (x : Rat) : ControllerMsg
  | sync : ControllerMsg
  | tapMode : ControllerMsg
  | setMode (digit : Option Nat) : ControllerMsg
  | quit : ControllerMsg
deriving DecidableEq, Repr

/-- struct Binding: a byte sequence paired with a message. -/
structure Binding where
  seq : List Nat
  msg : ControllerMsg
deriving DecidableEq, Repr

/-- enum BindingState (met_controller.rs lines 160-172). -/
inductive BindingState where
  | invalid : BindingState
  | start : BindingState
  | complete (b : Binding) : BindingState
deriving DecidableEq, Repr

/-- fn init_keybindings (met_controller.rs lines 113-156); bytes are
written in decimal: p=112, P=80, space=32, dot=46, comma=44,
apostrophe=39, q=113, Ctrl-C=3, ESC=27, bracket=91, A=65, B=66, C=67,
D=68, k=107, j=106, l=108, h=104, Ctrl-P=16, Ctrl-N=14, Ctrl-F=6,
Ctrl-B=2, digits 48..57. -/
def initKeybindings : List Binding :=
  [⟨[112], .pause⟩,
   ⟨[80], .play⟩,
   ⟨[32], .toggle⟩,
   ⟨[46], .sync⟩,
   ⟨[44], .tapMode⟩,
   ⟨[39], .setMode none⟩,
   ⟨[113], .quit⟩,
   ⟨[3], .quit⟩,
   ⟨[27, 91, 65], .adjustVolume volAdjust⟩,
   ⟨[27, 91, 66], .adjustVolume (-volAdjust)⟩,
   ⟨[27, 91, 67], .adjustTempo tempoAdjust⟩,
   ⟨[27, 91, 68], .adjustTempo (-tempoAdjust)⟩,
   ⟨[107], .adjustVolume volAdjust⟩,
   ⟨[106], .adjustVolume (-volAdjust)⟩,
   ⟨[108], .adjustTempo tempoAdjust⟩,
   ⟨[104], .adjustTempo (-tempoAdjust)⟩,
   ⟨[16], .adjustVolume volAdjust⟩,
   ⟨[14], .adjustVolume (-volAdjust)⟩,
   ⟨[6], .adjustTempo tempoAdjust⟩,
   ⟨[2], .adjustTempo (-tempoAdjust)⟩] ++
  (List.range 10).map (fun d => ⟨[48 + d], .setMode (some d)⟩)

/-- fn get_binding (met_controller.rs lines 176-192): the loop returns
Complete at the first exact match; otherwise the prefix flag gathered
over the whole table decides between Start and Invalid. -/
def getBinding (queue : List Nat) (bindings : List Binding) : BindingState :=
  match bindings.find? (fun b => b.seq == queue) with
  | some b => .complete b
  | none =>
    if bindings.any (fun b => queue.isPrefixOf b.seq) then .start else .invalid

/-- ControllerState::send (met_controller.rs lines 81-94) acting on the
accumulated byte buffer: push the byte, classify, reset on Invalid or
Complete. -/
def ctrlSend (buf : List Nat) (key : Nat) : List Nat × Option ControllerMsg :=
  match getBinding (buf ++ [key]) initKeybindings with
  | .invalid => ([], none)
  | .start => (buf ++ [key], none)
  | .complete b => ([], some b.msg)

-- ---------------------------------------------------------------------
-- Mode keypress handlers
-- ---------------------------------------------------------------------

/-- enum Keycode (app_state.rs lines 70-76). -/
inductive Keycode where
  | key (b : Nat) : Keycode
  | noKey : Keycode
deriving DecidableEq, Repr

/-- The transitions the three keypress handlers can request. The boxed
next-state payloads are represented by the constructor arguments the
source passes: TapState::new(rhythm, cfg, volume) and
MetronomeState::new(rhythm, cfg, volume, tempo); the audio handle cfg
carries no data relevant to any claim and is elided. -/
inductive Transition where
  | noChange : Transition
  | exit : Transition
  | toTap (rhythm : BeatSpec) (volume : Rat) : Transition
  | toMet (rhythm : BeatSpec) (volume : Rat) (tempo : Rat) : Transition
deriving DecidableEq, Repr

/-- enum TickCommand as used by the three model files; durations are
in seconds (only 0 occurs in keypress handlers). -/
inductive TickCommand where
  | none : TickCommand
  | set (secs : Rat) : TickCommand
  | unset : TickCommand
  | pause : TickCommand
  | resume : TickCommand
  | toggle : TickCommand
deriving DecidableEq, Repr

/-- The fields of MetronomeState (met_model.rs lines 30-47) that its
keypress handler reads or writes; view and audio config are display
and output collaborators with no bearing on the returned directives. -/
structure MetState where
  rhythm : BeatSpec
  tickNumber : Nat
  volume : Rat
  tempo : Rat
  ctrlBuf : List Nat
deriving DecidableEq, Repr

/-- The f64 constants TEMPO_MIN = 10.0 and TEMPO_MAX = 300.0. -/
def tempoMin : Rat := 10

def tempoMax : Rat := 300

/-- MetronomeState::keypress (met_model.rs lines 85-144). On NoKey the
handler returns Exit before consulting the controller. The snapshot's
met_model.rs predates the SetMode message (its match has no such arm);
that message is mapped to the no-op directive pair here; no claim
depends on it. -/
def metKeypress (st : MetState) (key : Keycode) : MetState × Transition × TickCommand :=
  match key with
  | .noKey => (st, .exit, .none)
  | .key b =>
    let r := ctrlSend st.ctrlBuf b
    let st1 := { st with ctrlBuf := r.1 }
    match r.2 with
    | Option.none => (st1, .noChange, .none)
    | some .pause => (st1, .noChange, .pause)
    | some .play => (st1, .noChange, .resume)
    | some .toggle => (st1, .noChange, .toggle)
    | some (.adjustVolume x) =>
      let v := st1.volume + x
      let v := if v < 0 then 0 else if v > 1 then 1 else v
      ({ st1 with volume := v }, .noChange, .none)
    | some (.adjustTempo x) =>
      let t := st1.tempo + x
      let t := if t < tempoMin then tempoMin else if t > tempoMax then tempoMax else t
      ({ st1 with tempo := t }, .noChange, .none)
    | some .sync => ({ st1 with tickNumber := 0 }, .noChange, .set 0)
    | some .tapMode => (st1, .toTap st1.rhythm st1.volume, .set 0)
    | some (.setMode _) => (st1, .noChange, .none)
    | some .quit => (st1, .exit, .none)

/-- The fields of SetState (set_model.rs lines 29-45) that its keypress
handler uses. -/
structure SetSt where
  tempo : Nat
  rhythm : BeatSpec
  volume : Rat
deriving DecidableEq, Repr

/-- SetState::exit (set_model.rs lines 61-71). -/
def setExit (st : SetSt) : SetSt × Transition × TickCommand :=
  (st, .toMet st.rhythm st.volume (st.tempo : Rat), .set 0)

/-- SetState::keypress (set_model.rs lines 80-107). The digit test is
the exclusive byte range 48 ≤ k < 57; tempo arithmetic is u32 with
wrap; TEMPO_MAX as u32 is 300. -/
def setKeypress (st : SetSt) (key : Keycode) : SetSt × Transition × TickCommand :=
  match key with
  | .noKey => (st, .exit, .unset)
  | .key k =>
    if k = 3 then (st, .exit, .unset)
    else if 48 ≤ k ∧ k < 57 then
      let digit := k - 48
      let tempo := (st.tempo * 10 + digit) % u32Mod
      let st1 := { st with tempo := tempo }
      if (tempo * 10) % u32Mod > 300 then setExit st1
      else (st1, .noChange, .unset)
    else setExit st

/-- The fields of TapState (tap_model.rs lines 29-44) that its keypress
handler uses; tap instants are nanoseconds on the monotonic clock. -/
structure TapSt where
  times : List Nat
  rhythm : BeatSpec
  volume : Rat
deriving DecidableEq, Repr

/-- The f64 constant DEF_TEMPO = 120.0. -/
def defTempo : Rat := 120

/-- TapState::calc_tempo (tap_model.rs lines 62-85). The outer Option
is the panic channel (division by zero when all taps coincide); the
inner Option is the source's own Option, none when fewer than two taps
exist. Durations divide with nanosecond truncation; the final u128
quotient is below 2^53 so its f64 cast is exact. -/
def calcTempo (times : List Nat) : Option (Option Nat) :=
  if times.length < 2 then some Option.none
  else
    let first := times.headD 0
    let last := times.getLastD 0
    let timeDelta := last - first
    let timePerEvent := timeDelta / (times.length - 1)
    if timePerEvent = 0 then none
    else some (some (60000000000 / timePerEvent))

/-- TapState::exit (tap_model.rs lines 88-101). -/
def tapExit (st : TapSt) : Option (TapSt × Transition × TickCommand) :=
  (calcTempo st.times).map fun t? =>
    (st, .toMet st.rhythm st.volume (match t? with
      | Option.none => defTempo
      | some x => (x : Rat)), .set 0)

/-- TapState::keypress (tap_model.rs lines 110-124): comma = 44 records
a tap, Ctrl-C = 3 exits the program, and every other key, the NoKey
end-of-stream signal included, leaves Tap mode via exit(). -/
def tapKeypress (st : TapSt) (key : Keycode) (now : Nat) :
    Option (TapSt × Transition × TickCommand) :=
  match key with
  | .key 44 => some ({ st with times := st.times ++ [now] }, .noChange, .unset)
  | .key 3 => some (st, .exit, .unset)
  | _ => tapExit st

-- ---------------------------------------------------------------------
-- Timer operations (src/app_state.rs lines 57-67 and 159-188)
-- ---------------------------------------------------------------------

/-- enum TickTime: the scheduler's timer state. -/
inductive TickTime where
  | none : TickTime
  | time (t : Nat) : TickTime
  | paused (d : Nat) : TickTime
deriving DecidableEq, Repr

/-- StateManager::pause (app_state.rs lines 159-168): on a scheduled
timer, remaining = checked_duration_since clamped to zero, which is
exactly Nat truncated subtraction; any other state is left alone. -/
def pauseTimer (now : Nat) : TickTime → TickTime
  | .time t => .paused (t - now)
  | s => s

/-- StateManager::resume (app_state.rs lines 171-177): reschedule at
now + remaining; panics (none) when the timer is not paused. -/
def resumeTimer (now : Nat) : TickTime → Option TickTime
  | .paused d => some (.time (now + d))
  | _ => Option.none

/-- StateManager::toggle_paused (app_state.rs lines 180-188): resume a
paused timer, pause a scheduled one, panic (none) when unscheduled. -/
def togglePaused (now : Nat) : TickTime → Option TickTime
  | .paused d => resumeTimer now (.paused d)
  | .time t => some (pauseTimer now (.time t))
  | .none => Option.none

-- ---------------------------------------------------------------------
-- Theorems
-- ---------------------------------------------------------------------

theorem euclidFuel_eq_gcd (f : Nat) : ∀ a b : Nat, b < f → euclidFuel f a b = Nat.gcd b a := by
  induction f with
  | zero => intro a b h; omega
  | succ f ih =>
    intro a b h
    by_cases hb : b = 0
    · subst hb; simp [euclidFuel]
    · have hlt : a % b < f := by
        have h1 : a % b < b := Nat.mod_lt _ (Nat.pos_of_ne_zero hb)
        omega
      have := ih b (a % b) hlt
      rw [euclidFuel, if_neg hb, this, Nat.gcd_rec b a]

theorem euclid_eq_gcd (a b : Nat) : euclid a b = Nat.gcd a b := by
  rw [euclid, euclidFuel_eq_gcd (b + 1) a b (Nat.lt_succ_self b), Nat.gcd_comm]

theorem lcm_step_eq (l n : Nat) : l * (n / euclid l n) = Nat.lcm l n := by
  rw [euclid_eq_gcd, Nat.lcm, Nat.mul_div_assoc l (Nat.gcd_dvd_right l n)]

theorem lcmExact_eq_foldl_lcm (nums : List Nat) :
    lcmExact nums = nums.foldl Nat.lcm 1 := by
  have h : ∀ (ns : List Nat) (l : Nat),
      ns.foldl (fun l n => l * (n / euclid l n)) l = ns.foldl Nat.lcm l := by
    intro ns
    induction ns with
    | nil => intro l; rfl
    | cons n ns ih => intro l; simp only [List.foldl_cons, lcm_step_eq, ih]
  exact h nums 1

theorem dvd_foldl_lcm (ns : List Nat) : ∀ l : Nat, l ∣ ns.foldl Nat.lcm l := by
  induction ns with
  | nil => intro l; exact dvd_refl l
  | cons n ns ih =>
    intro l
    exact (Nat.dvd_lcm_left l n).trans (ih (Nat.lcm l n))

theorem foldl_lcm_pos (ns : List Nat) :
    ∀ l : Nat, 0 < l → (∀ n ∈ ns, 0 < n) → 0 < ns.foldl Nat.lcm l := by
  induction ns with
  | nil => intro l hl _; exact hl
  | cons n ns ih =>
    intro l hl hmem
    refine ih (Nat.lcm l n) ?_ (fun m hm => hmem m (List.mem_cons_of_mem n hm))
    have hn : 0 < n := hmem n (List.mem_cons_self n ns)
    exact Nat.pos_of_ne_zero (Nat.lcm_ne_zero (Nat.pos_iff_ne_zero.mp hl)
      (Nat.pos_iff_ne_zero.mp hn))

theorem mem_dvd_foldl_lcm (ns : List Nat) :
    ∀ (l n : Nat), n ∈ ns → n ∣ ns.foldl Nat.lcm l := by
  induction ns with
  | nil => intro l n h; cases h
  | cons m ns ih =>
    intro l n h
    rcases List.mem_cons.mp h with h | h
    · subst h
      exact (Nat.dvd_lcm_right l n).trans (dvd_foldl_lcm ns (Nat.lcm l n))
    · exact ih (Nat.lcm l m) n h

/-- When every entry is positive and the exact result fits in a u32,
the wrapping fold computes the exact fold: every intermediate value
divides the final one, hence also fits, so no wrap ever fires. -/
theorem lcmU32_eq_exact (nums : List Nat) (hpos : ∀ n ∈ nums, 0 < n)
    (hfit : lcmExact nums < u32Mod) : lcmU32 nums = lcmExact nums := by
  rw [lcmExact_eq_foldl_lcm] at hfit ⊢
  have h : ∀ (ns : List Nat) (l : Nat), 0 < l → (∀ n ∈ ns, 0 < n) →
      ns.foldl Nat.lcm l < u32Mod →
      ns.foldl (fun l n => (l * (n / euclid l n)) % u32Mod) l = ns.foldl Nat.lcm l := by
    intro ns
    induction ns with
    | nil => intro l _ _ _; rfl
    | cons n ns ih =>
      intro l hl hmem hfit
      have hn : 0 < n := hmem n (List.mem_cons_self n ns)
      have hlcm : 0 < Nat.lcm l n :=
        Nat.pos_of_ne_zero (Nat.lcm_ne_zero (Nat.pos_iff_ne_zero.mp hl)
          (Nat.pos_iff_ne_zero.mp hn))
      have hdvd : Nat.lcm l n ∣ ns.foldl Nat.lcm (Nat.lcm l n) :=
        dvd_foldl_lcm ns (Nat.lcm l n)
      have hposfold : 0 < ns.foldl Nat.lcm (Nat.lcm l n) :=
        foldl_lcm_pos ns (Nat.lcm l n) hlcm
          (fun m hm => hmem m (List.mem_cons_of_mem n hm))
      have hle : Nat.lcm l n ≤ ns.foldl Nat.lcm (Nat.lcm l n) :=
        Nat.le_of_dvd hposfold hdvd
      have hfits : Nat.lcm l n < u32Mod := lt_of_le_of_lt hle (by simpa using hfit)
      have hstep : (l * (n / euclid l n)) % u32Mod = Nat.lcm l n := by
        rw [lcm_step_eq, Nat.mod_eq_of_lt hfits]
      rw [List.foldl_cons, List.foldl_cons, hstep]
      exact ih (Nat.lcm l n) hlcm (fun m hm => hmem m (List.mem_cons_of_mem n hm))
        (by simpa using hfit)
  exact h nums 1 Nat.one_pos hpos hfit

-- Sanity checks mirroring the Rust unit test lcm_test.
example : euclid 12 12 = 12 := by decide
example : euclid 12 13 = 1 := by decide
example : euclid 12 15 = 3 := by decide

-- Sanity checks mirroring the Rust unit tests subdiv_test and
-- crossbeat_test.
example : (fromSubdiv 3 2).map (fun s => (s.ticks.length, s.beat_len)) = some (6, 2) := by
  decide
example : fromCrossbeats [3, 6] = some ⟨[.beep 0, .beep 2, .beep 1, .beep 2, .beep 1, .beep 2], 2⟩ := by
  decide

-- Sanity check mirroring the Rust unit test rspec_test.
example : (fromRhythmspec ['0', '2', '!', '1', '2', '1', '2']).map
    (fun s => (s.ticks.length, s.beat_len)) = some (6, 2) := by decide

theorem rspecLoop_beatLen (s : List Char) :
    ∀ (ticks : List Event) (beatLen n : Nat) (out : List Event × Nat),
      rspecLoop s ticks beatLen n = some out →
      out.2 = ((lastBangIdx? s).map (fun k => n + k)).getD beatLen := by
  induction s with
  | nil =>
    intro ticks beatLen n out h
    simp only [rspecLoop, Option.some_inj] at h
    subst h; rfl
  | cons c rest ih =>
    intro ticks beatLen n out h
    rw [rspecLoop] at h
    by_cases hd : '0' ≤ c ∧ c ≤ '9'
    · rw [if_pos hd] at h
      have hnb : c ≠ '!' := by
        rintro rfl
        exact absurd hd.1 (by decide)
      have hrec := ih _ _ _ _ h
      rcases hk : lastBangIdx? rest with _ | k <;>
        simp [hk] at hrec <;> simp [lastBangIdx?, hk, hnb] <;> omega
    · rw [if_neg hd] at h
      by_cases hdot : c = '.'
      · rw [if_pos hdot] at h
        have hnb : c ≠ '!' := by rw [hdot]; decide
        have hrec := ih _ _ _ _ h
        rcases hk : lastBangIdx? rest with _ | k <;>
          simp [hk] at hrec <;> simp [lastBangIdx?, hk, hnb] <;> omega
      · rw [if_neg hdot] at h
        by_cases hbang : c = '!'
        · rw [if_pos hbang] at h
          subst hbang
          have hrec := ih _ _ _ _ h
          rcases hk : lastBangIdx? rest with _ | k <;>
            simp [hk] at hrec <;> simp [lastBangIdx?, hk] <;> omega
        · rw [if_neg hbang] at h
          cases h

theorem fromRhythmspec_beat_len (s : List Char) (spec : BeatSpec)
    (h : fromRhythmspec s = some spec) : spec.beat_len = charsBeforeLastBang s := by
  rw [fromRhythmspec] at h
  rcases hout : rspecLoop s [] 1 0 with _ | out
  · rw [hout] at h; cases h
  · rw [hout] at h
    simp only [Option.map_some', Option.some_inj] at h
    have hrec := rspecLoop_beatLen s [] 1 0 out hout
    rw [charsBeforeLastBang, ← h]
    rcases hk : lastBangIdx? s with _ | k <;> simp [hk] at hrec ⊢ <;> simp [hrec]

-- ---------------------------------------------------------------------
-- Lemmas on the tick-building loop of from_crossbeats
-- ---------------------------------------------------------------------

theorem scanBeats_isSome (L t : Nat) (hL : 0 < L) :
    ∀ (bs : List Nat) (i : Nat), (∀ b ∈ bs, 0 < b ∧ b ∣ L) →
      (scanBeats L t bs i).isSome := by
  intro bs
  induction bs with
  | nil => intro i _; rfl
  | cons b rest ih =>
    intro i hmem
    have hb := hmem b (List.mem_cons_self b rest)
    have hb0 : b ≠ 0 := Nat.pos_iff_ne_zero.mp hb.1
    have hmod : L % b = 0 := by
      obtain ⟨c, hc⟩ := hb.2
      subst hc
      exact Nat.mul_mod_right b c
    have hdiv : 0 < L / b := Nat.div_pos (Nat.le_of_dvd hL hb.2) hb.1
    rw [scanBeats, if_neg hb0, if_neg (by simp [hmod]), if_neg (Nat.pos_iff_ne_zero.mp hdiv)]
    by_cases ht : t % (L / b) = 0
    · rw [if_pos ht]; rfl
    · rw [if_neg ht]
      exact ih (i + 1) (fun m hm => hmem m (List.mem_cons_of_mem b hm))

theorem scanBeats_first (L : Nat) (hL : 0 < L) (bs : List Nat) :
    scanBeats L 0 (1 :: bs) 0 = some (.beep 0) := by
  rw [scanBeats, if_neg (by omega), if_neg (by simp [Nat.mod_one]),
    if_neg (by simpa [Nat.div_one] using Nat.pos_iff_ne_zero.mp hL),
    if_pos (by simp [Nat.zero_mod])]

theorem buildAux_length (bs : List Nat) (L : Nat) :
    ∀ (r t : Nat) (l : List Event), buildAux bs L t r = some l → l.length = r := by
  intro r
  induction r with
  | zero =>
    intro t l h
    simp only [buildAux, Option.some_inj] at h
    subst h; rfl
  | succ r ih =>
    intro t l h
    rw [buildAux] at h
    rcases hs : scanBeats L t bs 0 with _ | e <;> rw [hs] at h
    · cases h
    · rcases hb : buildAux bs L (t + 1) r with _ | l0 <;> rw [hb] at h
      · cases h
      · simp only [Option.some_inj] at h
        subst h
        simp [ih (t + 1) l0 hb]

theorem buildAux_isSome (bs : List Nat) (L : Nat)
    (hscan : ∀ t, (scanBeats L t bs 0).isSome) :
    ∀ (r t : Nat), (buildAux bs L t r).isSome := by
  intro r
  induction r with
  | zero => intro t; rfl
  | succ r ih =>
    intro t
    rw [buildAux]
    rcases hs : scanBeats L t bs 0 with _ | e
    · exact absurd (hscan t) (by simp [hs])
    · rcases hb : buildAux bs L (t + 1) r with _ | l0
      · exact absurd (ih (t + 1)) (by simp [hb])
      · rfl

theorem buildAux_head (bs : List Nat) (L r t : Nat) (l : List Event)
    (h : buildAux bs L t (r + 1) = some l) : l.head? = scanBeats L t bs 0 := by
  rw [buildAux] at h
  rcases hs : scanBeats L t bs 0 with _ | e <;> rw [hs] at h
  · cases h
  · rcases hb : buildAux bs L (t + 1) r with _ | l0 <;> rw [hb] at h
    · cases h
    · simp only [Option.some_inj] at h
      subst h; rfl

theorem buildAux_head_pos (bs : List Nat) (L r t : Nat) (l : List Event)
    (hr : r ≠ 0) (h : buildAux bs L t r = some l) : l.head? = scanBeats L t bs 0 := by
  obtain ⟨r0, rfl⟩ := Nat.exists_eq_succ_of_ne_zero hr
  exact buildAux_head bs L r0 t l h

/-- Under the spec's numeric preconditions (positive beat counts, no
u32 overflow of the tick resolution), from_crossbeats on a non-empty
list succeeds and produces the grid of the exact lcm resolution, whose
first tick belongs to the implicit downbeat. -/
theorem fromCrossbeats_success (b1 : Nat) (rest : List Nat)
    (hpos : ∀ b ∈ b1 :: rest, 0 < b)
    (hfit : lcmExact (1 :: b1 :: rest) < u32Mod) :
    ∃ ticks : List Event,
      fromCrossbeats (b1 :: rest) = some ⟨ticks, lcmExact (1 :: b1 :: rest) / b1⟩ ∧
      ticks.length = lcmExact (1 :: b1 :: rest) ∧
      ticks.head? = some (.beep 0) ∧
      0 < lcmExact (1 :: b1 :: rest) ∧
      b1 ∣ lcmExact (1 :: b1 :: rest) := by
  have hposall : ∀ b ∈ 1 :: b1 :: rest, 0 < b := by
    intro b hb
    rcases List.mem_cons.mp hb with h | h
    · omega
    · exact hpos b h
  have hLdef : lcmExact (1 :: b1 :: rest) = (1 :: b1 :: rest).foldl Nat.lcm 1 :=
    lcmExact_eq_foldl_lcm _
  set L := lcmExact (1 :: b1 :: rest) with hLset
  have hLpos : 0 < L := by
    rw [hLdef]; exact foldl_lcm_pos _ 1 Nat.one_pos hposall
  have hdvdall : ∀ b ∈ 1 :: b1 :: rest, b ∣ L := by
    intro b hb
    rw [hLdef]; exact mem_dvd_foldl_lcm _ 1 b hb
  have hwrap : lcmU32 (1 :: b1 :: rest) = L :=
    lcmU32_eq_exact _ hposall hfit
  have hscan : ∀ t, (scanBeats L t (1 :: b1 :: rest) 0).isSome := by
    intro t
    exact scanBeats_isSome L t hLpos _ 0 (fun b hb => ⟨hposall b hb, hdvdall b hb⟩)
  have hbuild := buildAux_isSome (1 :: b1 :: rest) L hscan L 0
  rcases hb : buildAux (1 :: b1 :: rest) L 0 L with _ | ticks
  · exact absurd hbuild (by simp [hb])
  · refine ⟨ticks, ?_, buildAux_length _ _ _ _ _ hb, ?_, hLpos, hdvdall b1 (by simp)⟩
    · unfold fromCrossbeats
      rw [hwrap, hb]
      show (if b1 = 0 then none else some (⟨ticks, L / b1⟩ : BeatSpec)) = some ⟨ticks, L / b1⟩
      rw [if_neg (Nat.pos_iff_ne_zero.mp (hpos b1 (by simp)))]
    · rw [buildAux_head_pos _ _ _ _ _ (Nat.pos_iff_ne_zero.mp hLpos) hb]
      exact scanBeats_first L hLpos (b1 :: rest)

theorem upsample_length (factor : Nat) (hf : 0 < factor) :
    ∀ l : List Event, (upsample factor l).length = l.length * factor := by
  intro l
  induction l with
  | nil => simp [upsample]
  | cons b rest ih =>
    simp only [upsample, List.length_cons, List.length_append, List.length_replicate, ih]
    ring_nf
    omega

theorem takeEvery_upsample (k : Nat) :
    ∀ (l : List Event) (f : Nat), l.length ≤ f →
      takeEvery k f (upsample k l) = l := by
  intro l
  induction l with
  | nil =>
    intro f _
    cases f <;> rfl
  | cons b rest ih =>
    intro f hf
    obtain ⟨f0, rfl⟩ : ∃ f0, f = f0 + 1 := by
      cases f
      · simp at hf
      · exact ⟨_, rfl⟩
    rw [upsample, takeEvery]
    congr 1
    rw [List.drop_append_of_le_length (by simp), List.drop_replicate]
    simp only [Nat.sub_self, List.replicate_zero, List.nil_append]
    exact ih f0 (by simpa using hf)

-- ---------------------------------------------------------------------
-- Claims
-- ---------------------------------------------------------------------

/-- C1 counterexample: the rhythm string 00!0 compiles to a BeatSpec
with three ticks and beat_len 2; for the valid target 2 the factor is
2 / gcd(2, 2) = 1, so make_divisible returns the spec unchanged and
its tick count 3 is not divisible by the target 2. The claimed law
result.ticks.len() % target == 0 therefore fails on a compiled spec. -/
theorem claim_C1_counterexample :
    fromRhythmspec ['0', '0', '!', '0'] = some ⟨[.beep 0, .beep 0, .beep 0], 2⟩ ∧
    (makeDivisible ⟨[.beep 0, .beep 0, .beep 0], 2⟩ 2).map
      (fun r => r.ticks.length % 2) = some 1 := by decide

/-- C1 amended: for every BeatSpec and positive target, with factor =
target / gcd(beat_len, target) and no u32 overflow of beat_len *
factor, make_divisible succeeds; the result has ticks.len() *
factor ticks and beat_len * factor as its beat length, and taking
every factor-th element recovers the original ticks. The divisibility
of the resulting tick count by the target holds under the additional
hypothesis that beat_len divides ticks.len() (true for the subdivision
and cross-rhythm constructions, but not for every rhythm-spec string). -/
theorem claim_C1 (s : BeatSpec) (value : Nat) (hv : 0 < value)
    (hfit : s.beat_len * (value / Nat.gcd s.beat_len value) < u32Mod) :
    ∃ r, makeDivisible s value = some r ∧
      r.ticks.length = s.ticks.length * (value / Nat.gcd s.beat_len value) ∧
      r.beat_len = s.beat_len * (value / Nat.gcd s.beat_len value) ∧
      takeEvery (value / Nat.gcd s.beat_len value) r.ticks.length r.ticks = s.ticks ∧
      (s.beat_len ∣ s.ticks.length → value ∣ r.ticks.length) := by
  have hg : 0 < Nat.gcd s.beat_len value := Nat.gcd_pos_of_pos_right _ hv
  have heuclid : euclid s.beat_len value = Nat.gcd s.beat_len value :=
    euclid_eq_gcd _ _
  have hne : ¬ euclid s.beat_len value = 0 := by
    rw [heuclid]; omega
  have hfpos : 0 < value / Nat.gcd s.beat_len value :=
    Nat.div_pos (Nat.le_of_dvd hv (Nat.gcd_dvd_right _ _)) hg
  refine ⟨_, by rw [makeDivisible, if_neg hne, heuclid], ?_, ?_, ?_, ?_⟩
  · exact upsample_length _ hfpos s.ticks
  · exact Nat.mod_eq_of_lt hfit
  · rw [upsample_length _ hfpos s.ticks]
    exact takeEvery_upsample _ s.ticks _ (Nat.le_mul_of_pos_right _ hfpos)
  · intro hdvd
    rw [upsample_length _ hfpos s.ticks]
    obtain ⟨m, hm⟩ := hdvd
    obtain ⟨d, hd⟩ := Nat.gcd_dvd_right s.beat_len value
    obtain ⟨c, hc⟩ := Nat.gcd_dvd_left s.beat_len value
    have hfactor : value / Nat.gcd s.beat_len value = d :=
      Nat.div_eq_of_eq_mul_left hg (hd.trans (Nat.mul_comm _ _))
    refine ⟨m * c, ?_⟩
    rw [hm, hfactor]
    calc s.beat_len * m * d = Nat.gcd s.beat_len value * c * m * d := by rw [← hc]
    _ = Nat.gcd s.beat_len value * d * (m * c) := by ring
    _ = value * (m * c) := by rw [← hd]

/-- C1 witness: the spec with ticks Beep 0, Rest and beat_len 2, at
target 3: factor 3, six-tick result, beat_len 6, round trip holds and
3 divides 6. -/
theorem claim_C1_witness :
    0 < 3 ∧ (⟨[.beep 0, .rest], 2⟩ : BeatSpec).beat_len *
      (3 / Nat.gcd (⟨[.beep 0, .rest], 2⟩ : BeatSpec).beat_len 3) < u32Mod ∧
    (∃ r, makeDivisible ⟨[.beep 0, .rest], 2⟩ 3 = some r ∧
      r.ticks.length = (⟨[.beep 0, .rest], 2⟩ : BeatSpec).ticks.length * (3 / Nat.gcd 2 3) ∧
      r.beat_len = 2 * (3 / Nat.gcd 2 3) ∧
      takeEvery (3 / Nat.gcd 2 3) r.ticks.length r.ticks = [.beep 0, .rest] ∧
      (2 ∣ 2 → 3 ∣ r.ticks.length)) :=
  ⟨by decide, by decide, claim_C1 ⟨[.beep 0, .rest], 2⟩ 3 (by decide) (by decide)⟩

/-- C2 counterexample: the accepted string 0!0! has two ticks emitted
before its last bang, yet the parser stores beat_len 3, because the
internal counter n counts every character (the first bang included),
not only the emitted ticks. -/
theorem claim_C2_counterexample :
    fromRhythmspec ['0', '!', '0', '!'] = some ⟨[.beep 0, .beep 0], 3⟩ ∧
    ticksBeforeLastBang ['0', '!', '0', '!'] = 2 ∧
    (3 : Nat) ≠ 2 := by decide

/-- C2 amended: for every accepted string, beat_len equals the number
of characters of any kind (emitted ticks and bang marks alike) before
the last bang, and 1 when the string has no bang. -/
theorem claim_C2 (s : List Char) (spec : BeatSpec)
    (h : fromRhythmspec s = some spec) : spec.beat_len = charsBeforeLastBang s :=
  fromRhythmspec_beat_len s spec h

/-- C2 witness: the string 02!12 parses with beat_len 2, the count of
characters before its only bang. -/
theorem claim_C2_witness :
    fromRhythmspec ['0', '2', '!', '1', '2'] =
      some ⟨[.beep 0, .beep 2, .beep 1, .beep 2], 2⟩ ∧
    (⟨[.beep 0, .beep 2, .beep 1, .beep 2], 2⟩ : BeatSpec).beat_len =
      charsBeforeLastBang ['0', '2', '!', '1', '2'] :=
  ⟨by decide, claim_C2 ['0', '2', '!', '1', '2'] _ (by decide)⟩

/-- C4 counterexample: the cross-rhythm constructor on the empty beat
list does not yield the claimed one-tick grid: it panics (out of
bounds beats[1]) and so produces nothing at all. -/
theorem claim_C4_counterexample :
    fromCrossbeats [] ≠ some ⟨[.beep 0], 1⟩ := by decide

/-- C4 amended: on the empty beat list the constructor does crash: the
one-tick grid of the implicit beat of 1 is built internally, but the
subsequent beats[1] index is out of bounds, so the call panics and no
BeatSpec is produced; there is no InvalidInput error path in the code. -/
theorem claim_C4 :
    buildAux [1] (lcmU32 [1]) 0 (lcmU32 [1]) = some [.beep 0] ∧
    fromCrossbeats [] = Option.none := by decide

/-- C5 counterexample: the rhythm-spec string consisting of a single
bang is accepted and produces a BeatSpec with empty ticks and
beat_len 0, violating both halves of the claimed invariant. -/
theorem claim_C5_counterexample :
    fromRhythmspec ['!'] = some ⟨[], 0⟩ ∧
    ¬ ((⟨[], 0⟩ : BeatSpec).ticks ≠ [] ∧ 0 < (⟨[], 0⟩ : BeatSpec).beat_len) := by
  decide

/-- C5 amended: specs built by the cross-rhythm and subdivision paths
(for positive beat counts, absent u32 overflow) satisfy the invariant
that ticks is non-empty and beat_len is positive; the rhythm-spec path
does not: the empty string yields empty ticks, and a string starting
with a bang yields beat_len 0. -/
theorem claim_C5 :
    (∀ (b1 : Nat) (rest : List Nat) (spec : BeatSpec),
        (∀ b ∈ b1 :: rest, 0 < b) → lcmExact (1 :: b1 :: rest) < u32Mod →
        fromCrossbeats (b1 :: rest) = some spec →
        spec.ticks ≠ [] ∧ 0 < spec.beat_len) ∧
    (∀ (beats subdiv : Nat) (spec : BeatSpec),
        0 < beats → 0 < subdiv → beats * subdiv < u32Mod →
        lcmExact [1, beats, (beats * subdiv) % u32Mod] < u32Mod →
        fromSubdiv beats subdiv = some spec →
        spec.ticks ≠ [] ∧ 0 < spec.beat_len) ∧
    fromRhythmspec [] = some ⟨[], 1⟩ ∧
    fromRhythmspec ['!'] = some ⟨[], 0⟩ := by
  have hcross : ∀ (b1 : Nat) (rest : List Nat) (spec : BeatSpec),
      (∀ b ∈ b1 :: rest, 0 < b) → lcmExact (1 :: b1 :: rest) < u32Mod →
      fromCrossbeats (b1 :: rest) = some spec →
      spec.ticks ≠ [] ∧ 0 < spec.beat_len := by
    intro b1 rest spec hpos hfit hsome
    obtain ⟨ticks, heq, hlen, _, hLpos, hdvd⟩ := fromCrossbeats_success b1 rest hpos hfit
    rw [heq] at hsome
    injection hsome with hsome
    subst hsome
    constructor
    · exact List.ne_nil_of_length_pos (by rw [hlen]; exact hLpos)
    · exact Nat.div_pos (Nat.le_of_dvd hLpos hdvd) (hpos b1 (by simp))
  refine ⟨hcross, ?_, by decide, by decide⟩
  intro beats subdiv spec hb hs hmul hfit hsome
  rw [fromSubdiv] at hsome
  refine hcross beats [(beats * subdiv) % u32Mod] spec ?_ hfit hsome
  intro b hbmem
  rcases List.mem_cons.mp hbmem with h | h
  · omega
  · have : b = (beats * subdiv) % u32Mod := by simpa using h
    rw [this, Nat.mod_eq_of_lt hmul]
    exact Nat.mul_pos hb hs

/-- C5 witness: the one-element cross-rhythm list gives the one-tick
grid with beat_len 1, which satisfies the invariant. -/
theorem claim_C5_witness :
    (∀ b ∈ [1], 0 < b) ∧ lcmExact [1, 1] < u32Mod ∧
    fromCrossbeats [1] = some ⟨[.beep 0], 1⟩ ∧
    ((⟨[.beep 0], 1⟩ : BeatSpec).ticks ≠ [] ∧
      0 < (⟨[.beep 0], 1⟩ : BeatSpec).beat_len) :=
  ⟨by decide, by decide, by decide,
    claim_C5.1 1 [] ⟨[.beep 0], 1⟩ (by decide) (by decide) (by decide)⟩

/-- C6: for every cross-rhythm beat list of positive counts whose tick
resolution does not overflow a u32, the constructed grid starts with
Beep 0: the implicit prepended downbeat owns tick 0. -/
theorem claim_C6 (beats : List Nat) (spec : BeatSpec)
    (hpos : ∀ b ∈ beats, 0 < b) (hfit : lcmExact (1 :: beats) < u32Mod)
    (hsome : fromCrossbeats beats = some spec) :
    spec.ticks.head? = some (.beep 0) := by
  cases beats with
  | nil =>
    have h0 : fromCrossbeats [] = Option.none := by decide
    rw [h0] at hsome
    cases hsome
  | cons b1 rest =>
    obtain ⟨ticks, heq, _, hhead, _, _⟩ := fromCrossbeats_success b1 rest hpos hfit
    rw [heq] at hsome
    injection hsome with hsome
    subst hsome
    exact hhead

/-- C6 witness: the cross-rhythm list with the single beat 2 gives the
grid Beep 0, Beep 1, whose tick 0 is Beep 0. -/
theorem claim_C6_witness :
    (∀ b ∈ [2], 0 < b) ∧ lcmExact [1, 2] < u32Mod ∧
    fromCrossbeats [2] = some ⟨[.beep 0, .beep 1], 1⟩ ∧
    (⟨[.beep 0, .beep 1], 1⟩ : BeatSpec).ticks.head? = some (.beep 0) :=
  ⟨by decide, by decide, by decide,
    claim_C6 [2] ⟨[.beep 0, .beep 1], 1⟩ (by decide) (by decide) (by decide)⟩

/-- C9 counterexample: the beat list 65537, 65536 (with the implicit
prepended 1) has true tick resolution 65537 * 65536 = 4295032832,
which exceeds u32; the lcm loop silently wraps it to 65536 instead of
reporting any ArithmeticOverflow failure. -/
theorem claim_C9_counterexample :
    lcmU32 [1, 65537, 65536] = 65536 ∧
    lcmExact [1, 65537, 65536] = 4295032832 ∧
    (65536 : Nat) ≠ 4295032832 := by decide

/-- C9 amended: overflow in the lcm computation is not detected and no
ArithmeticOverflow error exists: the running product wraps modulo 2^32
(release semantics; a debug build panics at the same multiplication),
and from_crossbeats on such input then panics at its internal
divisibility assertion instead of returning any error value. -/
theorem claim_C9 :
    lcmU32 [1, 65537, 65536] = 65536 ∧
    fromCrossbeats [65537, 65536] = Option.none := by decide

/-- C7: feeding ESC, bracket, D byte by byte classifies as Start,
Start, Complete with the AdjustTempo(-delta) binding and send emits
that message while resetting the buffer; ESC, bracket, X classifies as
Start, Start, Invalid with the buffer reset, so a following single q
completes to Quit. -/
theorem claim_C7 :
    getBinding [27] initKeybindings = .start ∧
    getBinding [27, 91] initKeybindings = .start ∧
    getBinding [27, 91, 68] initKeybindings =
      .complete ⟨[27, 91, 68], .adjustTempo (-tempoAdjust)⟩ ∧
    ctrlSend [] 27 = ([27], Option.none) ∧
    ctrlSend [27] 91 = ([27, 91], Option.none) ∧
    ctrlSend [27, 91] 68 = ([], some (.adjustTempo (-tempoAdjust))) ∧
    getBinding [27, 91, 88] initKeybindings = .invalid ∧
    ctrlSend [27, 91] 88 = ([], Option.none) ∧
    ctrlSend [] 113 = ([], some .quit) := by decide

/-- C3 counterexample: in Tap mode the synthetic end-of-stream signal
NoKey falls into the catch-all arm of keypress and leaves Tap mode
back to Metronome mode (carrying the default tempo here, since only
one tap was recorded); it is not an Exit. -/
theorem claim_C3_counterexample :
    tapKeypress ⟨[0], ⟨[.beep 0], 1⟩, 1⟩ .noKey 0 =
      some (⟨[0], ⟨[.beep 0], 1⟩, 1⟩, .toMet ⟨[.beep 0], 1⟩ 1 defTempo, .set 0) ∧
    (Transition.toMet ⟨[.beep 0], 1⟩ 1 defTempo ≠ .exit) := by decide

/-- C3 amended: Metronome and Set mode treat NoKey as an explicit quit
(StateTransition::Exit), but Tap mode treats it like any other
non-tap, non-Ctrl-C key: whenever its handler returns (it can also
panic in a degenerate all-coincident-taps state), the transition is a
return to Metronome mode, never an Exit. -/
theorem claim_C3 :
    (∀ st : MetState, (metKeypress st .noKey).2.1 = .exit) ∧
    (∀ st : SetSt, (setKeypress st .noKey).2.1 = .exit) ∧
    (∀ (st : TapSt) (now : Nat) (r : TapSt × Transition × TickCommand),
      tapKeypress st .noKey now = some r →
      r.2.1 ≠ .exit ∧ ∃ tempo, r.2.1 = .toMet st.rhythm st.volume tempo) := by
  refine ⟨fun st => rfl, fun st => rfl, ?_⟩
  intro st now r h
  have hx : tapExit st = some r := h
  rw [tapExit] at hx
  rcases hc : calcTempo st.times with _ | t?
  · rw [hc] at hx
    cases hx
  · rw [hc] at hx
    simp only [Option.map_some', Option.some_inj] at hx
    rw [← hx]
    exact ⟨by simp, _, rfl⟩

/-- C3 witness: concrete states for each mode; the tap state has the
single initial tap, so its exit computes the default tempo 120 and
returns to Metronome mode. -/
theorem claim_C3_witness :
    (metKeypress ⟨⟨[.beep 0], 1⟩, 0, 1, 120, []⟩ .noKey).2.1 = .exit ∧
    (setKeypress ⟨0, ⟨[.beep 0], 1⟩, 1⟩ .noKey).2.1 = .exit ∧
    ((Transition.toMet ⟨[.beep 0], 1⟩ 1 defTempo ≠ .exit) ∧
      ∃ tempo, Transition.toMet ⟨[.beep 0], 1⟩ 1 defTempo =
        .toMet ⟨[.beep 0], 1⟩ 1 tempo) :=
  ⟨claim_C3.1 _, claim_C3.2.1 _,
    claim_C3.2.2 ⟨[0], ⟨[.beep 0], 1⟩, 1⟩ 0
      (⟨[0], ⟨[.beep 0], 1⟩, 1⟩, .toMet ⟨[.beep 0], 1⟩ 1 defTempo, .set 0)
      (by decide)⟩

/-- C8 counterexample: on a scheduled timer whose deadline (instant 2)
has already passed at the current instant 5, Pause clamps the
remaining time to zero, so Resume reschedules at instant 5, not at the
original deadline 2; the round trip does not restore the deadline. -/
theorem claim_C8_counterexample :
    resumeTimer 5 (pauseTimer 5 (.time 2)) = some (.time 5) ∧
    TickTime.time 5 ≠ .time 2 := by decide

/-- C8 amended: provided the scheduled deadline has not already passed
(now ≤ t), Pause then Resume with no time elapsing restores the exact
deadline, and Toggle twice restores a scheduled timer; Toggle twice on
a paused timer restores the same remaining duration unconditionally.
For an overdue deadline the remaining time clamps to zero and the
round trip reschedules at the current instant instead. -/
theorem claim_C8 (t now d : Nat) (h : now ≤ t) :
    resumeTimer now (pauseTimer now (.time t)) = some (.time t) ∧
    (togglePaused now (.time t)).bind (togglePaused now) = some (.time t) ∧
    (togglePaused now (.paused d)).bind (togglePaused now) = some (.paused d) := by
  have h1 : now + (t - now) = t := by omega
  have h2 : now + d - now = d := by omega
  refine ⟨?_, ?_, ?_⟩ <;>
    simp [pauseTimer, resumeTimer, togglePaused, h1, h2]

/-- C8 witness: deadline 10, current instant 3, paused remainder 7. -/
theorem claim_C8_witness :
    (3 : Nat) ≤ 10 ∧
    (resumeTimer 3 (pauseTimer 3 (.time 10)) = some (.time 10) ∧
     (togglePaused 3 (.time 10)).bind (togglePaused 3) = some (.time 10) ∧
     (togglePaused 3 (.paused 7)).bind (togglePaused 3) = some (.paused 7)) :=
  ⟨by decide, claim_C8 10 3 7 (by decide)⟩

/-- C10: in Set mode the digit test is the exclusive range 48 ≤ k < 57,
so the byte of the key 9 (57) is not a digit: the handler submits the
current tempo unchanged and transitions back to Metronome mode; the
bytes of the keys 0 through 8 (48..56) instead multiply the
accumulated tempo by 10 and add the digit (with u32 wrap). -/
theorem claim_C10 :
    (∀ st : SetSt,
      setKeypress st (.key 57) =
        (st, .toMet st.rhythm st.volume (st.tempo : Rat), .set 0)) ∧
    (∀ (st : SetSt) (k : Nat), 48 ≤ k → k ≤ 56 →
      (setKeypress st (.key k)).1.tempo = (st.tempo * 10 + (k - 48)) % u32Mod) := by
  constructor
  · intro st
    rfl
  · intro st k h1 h2
    rw [setKeypress, if_neg (show ¬ k = 3 by omega),
      if_pos (show 48 ≤ k ∧ k < 57 by omega)]
    by_cases hcap : ((st.tempo * 10 + (k - 48)) % u32Mod * 10) % u32Mod > 300
    · rw [if_pos hcap]
      rfl
    · rw [if_neg hcap]

/-- C10 witness: at accumulated tempo 12, the key 9 submits tempo 12
and returns to Metronome mode, while the key 5 (byte 53) turns the
accumulated tempo into 125. -/
theorem claim_C10_witness :
    setKeypress ⟨12, ⟨[.beep 0], 1⟩, 1⟩ (.key 57) =
      (⟨12, ⟨[.beep 0], 1⟩, 1⟩, .toMet ⟨[.beep 0], 1⟩ 1 (12 : Rat), .set 0) ∧
    48 ≤ 53 ∧ 53 ≤ 56 ∧
    (setKeypress ⟨12, ⟨[.beep 0], 1⟩, 1⟩ (.key 53)).1.tempo = 125 :=
  ⟨claim_C10.1 ⟨12, ⟨[.beep 0], 1⟩, 1⟩, by decide, by decide,
    (claim_C10.2 ⟨12, ⟨[.beep 0], 1⟩, 1⟩ 53 (by decide) (by decide)).trans (by decide)⟩

end Metronome
